import Mathlib

/-!
# Verification of the product-catalog filter/sort utilities

Shallow embedding of `src/utils/product-filter.ts` and
`src/utils/product-sorter.ts`. Products are immutable records; JS numbers
are modelled as `Int` (the code only compares and subtracts them), JS
arrays as `List`, optional fields/criteria as `Option`, and
`Array.prototype.sort` (stable, per ES2019) as `List.mergeSort` on the
boolean order `cmp a b ≤ 0` induced by the JS comparator `cmp`.
-/

namespace Catalog

/-- The `Product` record from `src/types/product` as used by the utilities:
`id`, `name`, `category` are strings; `price`, `rating` are numbers;
`originalPrice` and `reviewCount` are optional numbers. -/
structure Product where
  id : String
  name : String
  price : Int
  originalPrice : Option Int
  rating : Int
  reviewCount : Option Int
  category : String
deriving Repr, DecidableEq

/-- The `priceRange` sub-object of `FilterCriteria` (fields `min`, `max`). -/
structure PriceRange where
  min : Int
  max : Int
deriving Repr, DecidableEq

/-- The `FilterCriteria` interface of `product-filter.ts`: every field is
optional (`Option`), mirroring the `?` fields of the TS interface. -/
structure FilterCriteria where
  categories : Option (List String)
  priceRange : Option PriceRange
  minRating : Option Int
  searchTerm : Option String
deriving Repr, DecidableEq

/-- A criteria value with no field supplied (`{}` in the TS code). -/
def noCriteria : FilterCriteria := ⟨none, none, none, none⟩

/-- JS `str.toLowerCase()`: character-wise lower-casing (kernel-computable
model of case folding, over the string's character list). -/
def jsToLower (s : String) : String :=
  ⟨s.data.map Char.toLower⟩

/-- JS `str.trim()`: strip leading and trailing whitespace characters. -/
def jsTrim (s : String) : String :=
  ⟨((s.data.dropWhile Char.isWhitespace).reverse.dropWhile
      Char.isWhitespace).reverse⟩

/-- JS `haystack.includes(needle)`: substring containment. -/
def jsIncludes (haystack needle : String) : Bool :=
  decide (needle.data <:+: haystack.data)

/-- The categories check of `filterProducts` (product-filter.ts lines 50-55):
`if (criteria.categories && criteria.categories.length > 0)` then the product
must satisfy `criteria.categories.includes(product.category)`. -/
def passesCategories (criteria : FilterCriteria) (product : Product) : Bool :=
  match criteria.categories with
  | some cats =>
      if 0 < cats.length then
        if cats.contains product.category then true else false
      else true
  | none => true

/-- The price-range check of `filterProducts` (lines 57-63):
fails when `product.price < min || product.price > max`. -/
def passesPriceRange (criteria : FilterCriteria) (product : Product) : Bool :=
  match criteria.priceRange with
  | some r =>
      if product.price < r.min ∨ product.price > r.max then false else true
  | none => true

/-- The minimum-rating check of `filterProducts` (lines 65-70):
fails when `product.rating < criteria.minRating`. -/
def passesMinRating (criteria : FilterCriteria) (product : Product) : Bool :=
  match criteria.minRating with
  | some m => if product.rating < m then false else true
  | none => true

/-- The search-term check of `filterProducts` (lines 72-79): active when
`criteria.searchTerm` is truthy (non-empty) and `criteria.searchTerm.trim()`
is non-empty; then the product's lower-cased `name` must contain the
lower-cased (NOT trimmed) search term. -/
def passesSearch (criteria : FilterCriteria) (product : Product) : Bool :=
  match criteria.searchTerm with
  | some s =>
      if s ≠ "" ∧ 0 < (jsTrim s).length then
        if jsIncludes (jsToLower product.name) (jsToLower s) then true
        else false
      else true
  | none => true

/-- `filterProducts` (product-filter.ts lines 48-83): `products.filter` with
the four early-return checks, i.e. their conjunction. -/
def filterProducts (products : List Product) (criteria : FilterCriteria) :
    List Product :=
  products.filter (fun product =>
    passesCategories criteria product && passesPriceRange criteria product &&
    passesMinRating criteria product && passesSearch criteria product)

/-- JS `Array.from(new Set(xs))`: deduplication keeping first occurrences. -/
def jsSetFrom (xs : List String) : List String :=
  xs.foldl (fun acc x => if x ∈ acc then acc else acc ++ [x]) []

/-- JS default `Array.prototype.sort()` on strings: stable sort by the
lexicographic string order. -/
def jsStringSort (xs : List String) : List String :=
  xs.mergeSort (fun a b => decide (a ≤ b))

/-- `getCategories` (product-filter.ts lines 91-94):
`Array.from(new Set(products.map(p => p.category))).sort()`. -/
def getCategories (products : List Product) : List String :=
  jsStringSort (jsSetFrom (products.map (·.category)))

/-- One step of the `counts` object update in `countProductsByCategory`
(lines 105-110): `if (!counts[c]) counts[c] = 0; counts[c]++`, on an
association-list model of the JS object (keys are unique by construction;
a missing key is appended, in insertion order, with count 1). -/
def bumpCount : List (String × Nat) → String → List (String × Nat)
  | [], c => [(c, 1)]
  | kv :: rest, c =>
      if kv.1 = c then (kv.1, kv.2 + 1) :: rest else kv :: bumpCount rest c

/-- `countProductsByCategory` (product-filter.ts lines 102-113):
`products.forEach` over the empty object. -/
def countProductsByCategory (products : List Product) : List (String × Nat) :=
  products.foldl (fun counts product => bumpCount counts product.category) []

/-- The `{min, max}` result record of `getPriceRange`. -/
structure NumRange where
  min : Int
  max : Int
deriving Repr, DecidableEq

/-- `getPriceRange` (product-filter.ts lines 121-131): `{min:0, max:0}` on
the empty array, otherwise `Math.min(...prices)` / `Math.max(...prices)`
over `prices = products.map(p => p.price)`. -/
def getPriceRange : List Product → NumRange
  | [] => ⟨0, 0⟩
  | p :: ps =>
      ⟨(ps.map (·.price)).foldl min p.price,
       (ps.map (·.price)).foldl max p.price⟩

/-- The `Omit<FilterCriteria, 'categories'>` type taken by
`filterByCategories` as `additionalCriteria`. -/
structure ExtraCriteria where
  priceRange : Option PriceRange
  minRating : Option Int
  searchTerm : Option String
deriving Repr, DecidableEq

/-- `filterByCategories` (product-filter.ts lines 141-150): calls
`filterProducts` with `categories` set to `selectedCategories` when
non-empty (else absent), spread with the optional extra criteria. -/
def filterByCategories (products : List Product)
    (selectedCategories : List String)
    (additionalCriteria : Option ExtraCriteria) : List Product :=
  let extra := additionalCriteria.getD ⟨none, none, none⟩
  filterProducts products
    { categories :=
        if 0 < selectedCategories.length then some selectedCategories else none
      priceRange := extra.priceRange
      minRating := extra.minRating
      searchTerm := extra.searchTerm }

/-- JS `a.localeCompare(b)` modelled as lexicographic string comparison:
negative when `a` precedes `b`, positive when `b` precedes `a`, else zero. -/
def localeCompare (a b : String) : Int :=
  if a.data < b.data then -1 else if b.data < a.data then 1 else 0

/-- JS `Array.prototype.sort(cmp)` on a copy (`[...products].sort(cmp)`),
for a consistent comparator: a stable sort placing `a` no later than `b`
whenever `cmp a b ≤ 0`, modelled by the stable `List.mergeSort`. -/
def jsSortBy (cmp : Product → Product → Int) (l : List Product) :
    List Product :=
  l.mergeSort (fun a b => decide (cmp a b ≤ 0))

/-- The defaulted review count `p.reviewCount || 0` used by the `rating`
and `reviews` comparators. -/
def reviewsOrZero (p : Product) : Int :=
  p.reviewCount.getD 0

/-- The six recognized sort tags of the `SortOption` union type
(`src/components/sort-dropdown.tsx` line 12). -/
def sortOptionTags : List String :=
  ["name-asc", "name-desc", "price-asc", "price-desc", "rating", "reviews"]

/-- `sortProducts` (product-sorter.ts lines 20-59): copies the input and
switches on the sort option, sorting with the corresponding comparator;
the `default` branch returns the copy unchanged. -/
def sortProducts (products : List Product) (sortOption : String) :
    List Product :=
  let sorted := products
  match sortOption with
  | "name-asc" => jsSortBy (fun a b => localeCompare a.name b.name) sorted
  | "name-desc" => jsSortBy (fun a b => localeCompare b.name a.name) sorted
  | "price-asc" => jsSortBy (fun a b => a.price - b.price) sorted
  | "price-desc" => jsSortBy (fun a b => b.price - a.price) sorted
  | "rating" =>
      jsSortBy (fun a b =>
        if b.rating ≠ a.rating then b.rating - a.rating
        else reviewsOrZero b - reviewsOrZero a) sorted
  | "reviews" =>
      jsSortBy (fun a b =>
        let aReviews := reviewsOrZero a
        let bReviews := reviewsOrZero b
        if bReviews ≠ aReviews then bReviews - aReviews
        else b.rating - a.rating) sorted
  | _ => sorted

/-! Sample products (the spec's §8 scenario and a tie-keyed pair). -/

/-- Product A of spec §8: `{name:"Zed",price:10,rating:4,reviewCount:5,category:"X"}`. -/
def prodZed : Product := ⟨"a1", "Zed", 10, none, 4, some 5, "X"⟩

/-- Product B of spec §8: `{name:"Ann",price:20,rating:4,reviewCount:50,category:"Y"}`. -/
def prodAnn : Product := ⟨"b2", "Ann", 20, none, 4, some 50, "Y"⟩

/-- A product sharing rating and review count with `twinB` (for stability). -/
def twinA : Product := ⟨"t1", "Alpha", 5, none, 3, some 7, "X"⟩

/-- A product sharing rating and review count with `twinA` (for stability). -/
def twinB : Product := ⟨"t2", "Beta", 8, none, 3, some 7, "Y"⟩

/-! ## Theorems -/

/-- C7: for every product list `P`, `filterByCategories P [] none` (empty
category selection, no additional criteria) returns all of `P` in its
original order. -/
theorem filterByCategories_nil_eq_self (P : List Product) :
    filterByCategories P [] none = P := by
  simp [filterByCategories, filterProducts, passesCategories, passesPriceRange,
    passesMinRating, passesSearch]

/-- C3: for every product list `P` and every sort option outside the six
recognized tags, `sortProducts` returns `P` in its original order. -/
theorem sortProducts_unrecognized (P : List Product) (s : String)
    (h : s ∉ sortOptionTags) : sortProducts P s = P := by
  unfold sortProducts
  split <;> simp_all [sortOptionTags]

/-- Closed instance of `sortProducts_unrecognized` at the tag
`"relevance"`, which is not one of the six recognized tags. -/
theorem sortProducts_unrecognized_witness :
    "relevance" ∉ sortOptionTags ∧
    sortProducts [prodZed, prodAnn] "relevance" = [prodZed, prodAnn] :=
  ⟨by decide, sortProducts_unrecognized [prodZed, prodAnn] "relevance" (by decide)⟩

/-- C9: for every product list `P` and every sort option string
(recognized or not), `sortProducts P s` is a permutation of `P`, and in
particular has the same length. -/
theorem sortProducts_perm (P : List Product) (s : String) :
    (sortProducts P s).Perm P ∧ (sortProducts P s).length = P.length := by
  have h : (sortProducts P s).Perm P := by
    unfold sortProducts
    split <;>
      first
        | exact List.mergeSort_perm _ _
        | exact List.Perm.refl _
  exact ⟨h, h.length_eq⟩

/-- `foldl min` over a list of prices yields one of its inputs. -/
theorem foldl_min_mem (l : List Int) : ∀ a : Int, l.foldl min a ∈ a :: l := by
  induction l with
  | nil => simp
  | cons b l ih =>
    intro a
    have h := ih (min a b)
    have hc := min_choice a b
    simp only [List.foldl_cons, List.mem_cons] at h ⊢
    rcases h with h | h
    · rcases hc with h' | h' <;> rw [h'] at h ⊢ <;> simp [h]
    · tauto

/-- `foldl min` is a lower bound of the seed and all list elements. -/
theorem foldl_min_le (l : List Int) :
    ∀ a : Int, l.foldl min a ≤ a ∧ ∀ x ∈ l, l.foldl min a ≤ x := by
  induction l with
  | nil => simp
  | cons b l ih =>
    intro a
    obtain ⟨h1, h2⟩ := ih (min a b)
    simp only [List.foldl_cons, List.mem_cons]
    refine ⟨le_trans h1 (min_le_left _ _), ?_⟩
    rintro x (rfl | hx)
    · exact le_trans h1 (min_le_right _ _)
    · exact h2 x hx

/-- `foldl max` over a list of prices yields one of its inputs. -/
theorem foldl_max_mem (l : List Int) : ∀ a : Int, l.foldl max a ∈ a :: l := by
  induction l with
  | nil => simp
  | cons b l ih =>
    intro a
    have h := ih (max a b)
    have hc := max_choice a b
    simp only [List.foldl_cons, List.mem_cons] at h ⊢
    rcases h with h | h
    · rcases hc with h' | h' <;> rw [h'] at h ⊢ <;> simp [h]
    · tauto

/-- `foldl max` is an upper bound of the seed and all list elements. -/
theorem foldl_max_le (l : List Int) :
    ∀ a : Int, a ≤ l.foldl max a ∧ ∀ x ∈ l, x ≤ l.foldl max a := by
  induction l with
  | nil => simp
  | cons b l ih =>
    intro a
    obtain ⟨h1, h2⟩ := ih (max a b)
    simp only [List.foldl_cons, List.mem_cons]
    refine ⟨le_trans (le_max_left _ _) h1, ?_⟩
    rintro x (rfl | hx)
    · exact le_trans (le_max_right _ _) h1
    · exact h2 x hx

/-- C6: `getPriceRange []` is `{min := 0, max := 0}`, and on a non-empty
list the `min`/`max` fields are attained prices and are, respectively, a
lower and an upper bound of every price in the list. -/
theorem getPriceRange_spec :
    getPriceRange [] = ⟨0, 0⟩ ∧
    ∀ P : List Product, P ≠ [] →
      ((getPriceRange P).min ∈ P.map (·.price) ∧
        ∀ p ∈ P, (getPriceRange P).min ≤ p.price) ∧
      ((getPriceRange P).max ∈ P.map (·.price) ∧
        ∀ p ∈ P, p.price ≤ (getPriceRange P).max) := by
  refine ⟨rfl, ?_⟩
  intro P hP
  match P with
  | p :: ps =>
    simp only [getPriceRange, List.map_cons]
    obtain ⟨hmin1, hmin2⟩ := foldl_min_le (ps.map (·.price)) p.price
    obtain ⟨hmax1, hmax2⟩ := foldl_max_le (ps.map (·.price)) p.price
    refine ⟨⟨foldl_min_mem (ps.map (·.price)) p.price, ?_⟩,
            ⟨foldl_max_mem (ps.map (·.price)) p.price, ?_⟩⟩
    · intro q hq
      rcases List.mem_cons.mp hq with rfl | hq
      · exact hmin1
      · exact hmin2 q.price (List.mem_map_of_mem _ hq)
    · intro q hq
      rcases List.mem_cons.mp hq with rfl | hq
      · exact hmax1
      · exact hmax2 q.price (List.mem_map_of_mem _ hq)

/-- Closed instance of `getPriceRange_spec` at the spec §8 products. -/
theorem getPriceRange_spec_witness :
    ([prodZed, prodAnn] : List Product) ≠ [] ∧
    (getPriceRange [prodZed, prodAnn]).min ∈ [prodZed, prodAnn].map (·.price) ∧
    (getPriceRange [prodZed, prodAnn]).max ∈ [prodZed, prodAnn].map (·.price) :=
  ⟨by decide,
    (getPriceRange_spec.2 [prodZed, prodAnn] (by decide)).1.1,
    (getPriceRange_spec.2 [prodZed, prodAnn] (by decide)).2.1⟩

/-- Spec-side statement of the filter criteria (§4.1): category membership
when `categories` is present and non-empty, `min ≤ price ≤ max` when
`priceRange` is present, `rating ≥ minRating` when `minRating` is present,
and the (case-folded substring) search criterion when `searchTerm` is
supplied and not blank. -/
def satisfiesCriteria (c : FilterCriteria) (p : Product) : Prop :=
  (∀ cats, c.categories = some cats → cats ≠ [] → p.category ∈ cats) ∧
  (∀ r, c.priceRange = some r → r.min ≤ p.price ∧ p.price ≤ r.max) ∧
  (∀ m, c.minRating = some m → m ≤ p.rating) ∧
  (∀ s, c.searchTerm = some s → jsTrim s ≠ "" →
    jsIncludes (jsToLower p.name) (jsToLower s) = true)

/-- The code's search guard (`s` truthy and `s.trim()` non-empty) holds
exactly when the trimmed term is non-empty. -/
theorem searchGuard_iff (s : String) :
    (s ≠ "" ∧ 0 < (jsTrim s).length) ↔ jsTrim s ≠ "" := by
  constructor
  · rintro ⟨h1, h2⟩ heq
    rw [heq] at h2
    exact absurd h2 (by decide)
  · intro h
    refine ⟨fun hs => h (by rw [hs]; decide), ?_⟩
    by_contra h2
    have hlen : (jsTrim s).length = 0 := by omega
    have hdata : (jsTrim s).data = [] := List.length_eq_zero.mp hlen
    exact h (by apply String.ext; rw [hdata])

/-- The categories check agrees with the spec-side formulation. -/
theorem passesCategories_iff (c : FilterCriteria) (p : Product) :
    passesCategories c p = true ↔
      ∀ cats, c.categories = some cats → cats ≠ [] → p.category ∈ cats := by
  cases hc : c.categories with
  | none => simp [passesCategories, hc]
  | some cats =>
    simp only [passesCategories, hc]
    by_cases hlen : 0 < cats.length
    · have hne : cats ≠ [] := by
        simpa [← List.length_pos] using hlen
      simp [hlen, hne, List.contains]
    · have hnil : cats = [] := by
        rcases cats with _ | _
        · rfl
        · simp at hlen
      subst hnil
      simp

/-- The price-range check agrees with the spec-side formulation. -/
theorem passesPriceRange_iff (c : FilterCriteria) (p : Product) :
    passesPriceRange c p = true ↔
      ∀ r, c.priceRange = some r → r.min ≤ p.price ∧ p.price ≤ r.max := by
  cases hc : c.priceRange with
  | none => simp [passesPriceRange, hc]
  | some r =>
    simp only [passesPriceRange, hc]
    by_cases h : p.price < r.min ∨ p.price > r.max
    · simp only [if_pos h]
      simp only [Option.some.injEq, forall_eq']
      constructor
      · intro hfalse
        exact absurd hfalse (by decide)
      · intro hr
        omega
    · simp only [if_neg h]
      simp only [Option.some.injEq, forall_eq']
      constructor
      · intro _
        omega
      · intro _
        trivial

/-- The minimum-rating check agrees with the spec-side formulation. -/
theorem passesMinRating_iff (c : FilterCriteria) (p : Product) :
    passesMinRating c p = true ↔
      ∀ m, c.minRating = some m → m ≤ p.rating := by
  cases hc : c.minRating with
  | none => simp [passesMinRating, hc]
  | some m =>
    simp only [passesMinRating, hc, Option.some.injEq, forall_eq']
    by_cases h : p.rating < m
    · simp only [if_pos h]
      constructor
      · intro hfalse
        exact absurd hfalse (by decide)
      · intro hr
        omega
    · simp only [if_neg h]
      constructor
      · intro _
        omega
      · intro _
        trivial

/-- The search check agrees with the spec-side formulation (the term is
matched as supplied, case-folded but not trimmed). -/
theorem passesSearch_iff (c : FilterCriteria) (p : Product) :
    passesSearch c p = true ↔
      ∀ s, c.searchTerm = some s → jsTrim s ≠ "" →
        jsIncludes (jsToLower p.name) (jsToLower s) = true := by
  cases hc : c.searchTerm with
  | none => simp [passesSearch, hc]
  | some s =>
    simp only [passesSearch, hc, Option.some.injEq, forall_eq']
    by_cases hg : jsTrim s ≠ ""
    · rw [if_pos ((searchGuard_iff s).mpr hg)]
      by_cases hi : jsIncludes (jsToLower p.name) (jsToLower s) = true
      · simp [hi]
      · simp [hi, hg]
    · push_neg at hg
      rw [if_neg (fun hcond => ((searchGuard_iff s).mp hcond) hg)]
      simp [hg]

/-- C2: `filterProducts P c` is a subsequence of `P` (hence preserves the
relative order of `P`), and a product is in the result iff it is in `P`
and satisfies every supplied criterion. -/
theorem filterProducts_spec (P : List Product) (c : FilterCriteria) :
    List.Sublist (filterProducts P c) P ∧
    ∀ p, p ∈ filterProducts P c ↔ p ∈ P ∧ satisfiesCriteria c p := by
  refine ⟨List.filter_sublist _, fun p => ?_⟩
  rw [filterProducts, List.mem_filter]
  refine and_congr_right fun _ => ?_
  rw [satisfiesCriteria]
  simp only [Bool.and_eq_true, passesCategories_iff, passesPriceRange_iff,
    passesMinRating_iff, passesSearch_iff, and_assoc]

/-- The search criterion as the spec claims it: the case-folded `name`
must contain the TRIMMED and case-folded search term as a substring. -/
def searchCriterionClaimed (s : String) (p : Product) : Bool :=
  jsIncludes (jsToLower p.name) (jsToLower (jsTrim s))

/-- C1 counterexample: with the non-blank search term `"an "` (trailing
space) and the product named `"Ann"`, the claimed criterion holds (the
trimmed, folded term `"an"` occurs in `"ann"`), yet the code's
`filterProducts` rejects the product, because it matches the folded term
without trimming it. -/
theorem searchTerm_claim_counterexample :
    jsTrim "an " ≠ "" ∧
    searchCriterionClaimed "an " prodAnn = true ∧
    ¬ (prodAnn ∈ filterProducts [prodAnn] ⟨none, none, none, some "an "⟩ ↔
        searchCriterionClaimed "an " prodAnn = true) :=
  ⟨by decide, by decide, by decide⟩

/-- C1 amended: when `searchTerm` is supplied and not blank, a product
passes iff its case-folded name contains the case-folded search term *as
supplied* (not trimmed); a blank or whitespace-only term imposes no
constraint. -/
theorem filterProducts_searchTerm_amended (P : List Product) (s : String) :
    (jsTrim s ≠ "" →
      ∀ p, p ∈ filterProducts P ⟨none, none, none, some s⟩ ↔
        p ∈ P ∧ jsIncludes (jsToLower p.name) (jsToLower s) = true) ∧
    (jsTrim s = "" → filterProducts P ⟨none, none, none, some s⟩ = P) := by
  constructor
  · intro hg p
    rw [filterProducts, List.mem_filter]
    refine and_congr_right fun _ => ?_
    simp only [Bool.and_eq_true, passesCategories_iff, passesPriceRange_iff,
      passesMinRating_iff, passesSearch_iff]
    simp [hg]
  · intro hg
    rw [filterProducts]
    apply List.filter_eq_self.mpr
    intro p _
    have hcond : ¬(s ≠ "" ∧ 0 < (jsTrim s).length) :=
      fun hcond => (searchGuard_iff s).mp hcond hg
    simp only [Bool.and_eq_true]
    exact ⟨⟨⟨rfl, rfl⟩, rfl⟩, by simp [passesSearch, hcond]⟩

/-- Closed instance of `filterProducts_searchTerm_amended` with term
`"an"` and the spec §8 products (only `"Ann"` matches). -/
theorem filterProducts_searchTerm_amended_witness :
    jsTrim "an" ≠ "" ∧
    (prodAnn ∈ filterProducts [prodZed, prodAnn] ⟨none, none, none, some "an"⟩ ↔
      prodAnn ∈ [prodZed, prodAnn] ∧
      jsIncludes (jsToLower prodAnn.name) (jsToLower "an") = true) :=
  ⟨by decide,
    (filterProducts_searchTerm_amended [prodZed, prodAnn] "an").1 (by decide) prodAnn⟩

/-! Per-tag unfolding of `sortProducts` (the `switch` branches). -/

theorem sortProducts_name_asc (P : List Product) :
    sortProducts P "name-asc" =
      jsSortBy (fun a b => localeCompare a.name b.name) P := rfl

theorem sortProducts_name_desc (P : List Product) :
    sortProducts P "name-desc" =
      jsSortBy (fun a b => localeCompare b.name a.name) P := rfl

theorem sortProducts_price_asc (P : List Product) :
    sortProducts P "price-asc" =
      jsSortBy (fun a b => a.price - b.price) P := rfl

theorem sortProducts_price_desc (P : List Product) :
    sortProducts P "price-desc" =
      jsSortBy (fun a b => b.price - a.price) P := rfl

theorem sortProducts_rating_eq (P : List Product) :
    sortProducts P "rating" =
      jsSortBy (fun a b =>
        if b.rating ≠ a.rating then b.rating - a.rating
        else reviewsOrZero b - reviewsOrZero a) P := rfl

theorem sortProducts_reviews_eq (P : List Product) :
    sortProducts P "reviews" =
      jsSortBy (fun a b =>
        if reviewsOrZero b ≠ reviewsOrZero a then
          reviewsOrZero b - reviewsOrZero a
        else b.rating - a.rating) P := rfl

/-- The name comparator is non-positive exactly when the first name is
lexicographically no greater. -/
theorem localeCompare_nonpos (x y : String) :
    localeCompare x y ≤ 0 ↔ x.data ≤ y.data := by
  unfold localeCompare
  rcases lt_trichotomy x.data y.data with h | h | h
  · simp [h, le_of_lt h]
  · simp [h]
  · rw [if_neg (lt_asymm h), if_pos h]
    simp only [not_le.mpr h, iff_false]
    decide

/-- The `rating` comparator is non-positive exactly for the claimed
descending-by-rating, then descending-by-reviews order. -/
theorem ratingCmp_nonpos (a b : Product) :
    (if b.rating ≠ a.rating then b.rating - a.rating
      else reviewsOrZero b - reviewsOrZero a) ≤ 0 ↔
    (b.rating < a.rating ∨
      (b.rating = a.rating ∧ reviewsOrZero b ≤ reviewsOrZero a)) := by
  by_cases h : b.rating = a.rating <;> simp [h] <;> omega

/-- The `reviews` comparator is non-positive exactly for the claimed
descending-by-reviews, then descending-by-rating order. -/
theorem reviewsCmp_nonpos (a b : Product) :
    (if reviewsOrZero b ≠ reviewsOrZero a then
        reviewsOrZero b - reviewsOrZero a
      else b.rating - a.rating) ≤ 0 ↔
    (reviewsOrZero b < reviewsOrZero a ∨
      (reviewsOrZero b = reviewsOrZero a ∧ b.rating ≤ a.rating)) := by
  by_cases h : reviewsOrZero b = reviewsOrZero a <;> simp [h] <;> omega

/-- A consistent comparator sorts idempotently: re-sorting the sorted
output returns it unchanged. -/
theorem jsSortBy_idem (cmp : Product → Product → Int)
    (trans : ∀ a b c : Product, cmp a b ≤ 0 → cmp b c ≤ 0 → cmp a c ≤ 0)
    (total : ∀ a b : Product, cmp a b ≤ 0 ∨ cmp b a ≤ 0) (l : List Product) :
    jsSortBy cmp (jsSortBy cmp l) = jsSortBy cmp l := by
  unfold jsSortBy
  apply List.mergeSort_of_sorted
  apply List.sorted_mergeSort
  · intro a b c hab hbc
    simp only [decide_eq_true_eq] at *
    exact trans a b c hab hbc
  · intro a b
    simp only [Bool.or_eq_true, decide_eq_true_eq]
    exact total a b

/-- C4: `sortProducts` is idempotent on each of the six recognized tags. -/
theorem sortProducts_idempotent (P : List Product) (s : String)
    (h : s ∈ sortOptionTags) :
    sortProducts (sortProducts P s) s = sortProducts P s := by
  simp only [sortOptionTags, List.mem_cons, List.not_mem_nil, or_false] at h
  rcases h with rfl | rfl | rfl | rfl | rfl | rfl
  · simp only [sortProducts_name_asc]
    apply jsSortBy_idem
    · intro a b c
      simp only [localeCompare_nonpos]
      exact le_trans
    · intro a b
      simp only [localeCompare_nonpos]
      exact le_total _ _
  · simp only [sortProducts_name_desc]
    apply jsSortBy_idem
    · intro a b c
      simp only [localeCompare_nonpos]
      intro h1 h2
      exact le_trans h2 h1
    · intro a b
      simp only [localeCompare_nonpos]
      exact le_total _ _
  · simp only [sortProducts_price_asc]
    apply jsSortBy_idem
    · intro a b c
      omega
    · intro a b
      omega
  · simp only [sortProducts_price_desc]
    apply jsSortBy_idem
    · intro a b c
      omega
    · intro a b
      omega
  · simp only [sortProducts_rating_eq]
    apply jsSortBy_idem
    · intro a b c
      simp only [ratingCmp_nonpos]
      omega
    · intro a b
      simp only [ratingCmp_nonpos]
      omega
  · simp only [sortProducts_reviews_eq]
    apply jsSortBy_idem
    · intro a b c
      simp only [reviewsCmp_nonpos]
      omega
    · intro a b
      simp only [reviewsCmp_nonpos]
      omega

/-- Closed instance of `sortProducts_idempotent` at tag `"rating"`. -/
theorem sortProducts_idempotent_witness :
    "rating" ∈ sortOptionTags ∧
    sortProducts (sortProducts [prodZed, prodAnn] "rating") "rating" =
      sortProducts [prodZed, prodAnn] "rating" :=
  ⟨by decide, sortProducts_idempotent [prodZed, prodAnn] "rating" (by decide)⟩

/-- C5: `sortProducts P "rating"` is a permutation of `P` ordered by
rating descending with review count (missing treated as 0) descending as
tie-break, and `sortProducts P "reviews"` is a permutation of `P` ordered
by review count descending with rating descending as tie-break. -/
theorem sortProducts_rating_reviews_sorted (P : List Product) :
    ((sortProducts P "rating").Perm P ∧
      (sortProducts P "rating").Pairwise (fun a b =>
        b.rating < a.rating ∨
          (b.rating = a.rating ∧ reviewsOrZero b ≤ reviewsOrZero a))) ∧
    ((sortProducts P "reviews").Perm P ∧
      (sortProducts P "reviews").Pairwise (fun a b =>
        reviewsOrZero b < reviewsOrZero a ∨
          (reviewsOrZero b = reviewsOrZero a ∧ b.rating ≤ a.rating))) := by
  constructor
  · rw [sortProducts_rating_eq]
    unfold jsSortBy
    refine ⟨List.mergeSort_perm _ _, ?_⟩
    have hs := @List.sorted_mergeSort Product (fun a b : Product =>
        decide ((if b.rating ≠ a.rating then b.rating - a.rating
          else reviewsOrZero b - reviewsOrZero a) ≤ 0))
      (fun a b c hab hbc => by
        simp only [decide_eq_true_eq, ratingCmp_nonpos] at *
        omega)
      (fun a b => by
        simp only [Bool.or_eq_true, decide_eq_true_eq, ratingCmp_nonpos]
        omega)
      P
    exact hs.imp (fun h => (ratingCmp_nonpos _ _).mp (by simpa using h))
  · rw [sortProducts_reviews_eq]
    unfold jsSortBy
    refine ⟨List.mergeSort_perm _ _, ?_⟩
    have hs := @List.sorted_mergeSort Product (fun a b : Product =>
        decide ((if reviewsOrZero b ≠ reviewsOrZero a then
            reviewsOrZero b - reviewsOrZero a
          else b.rating - a.rating) ≤ 0))
      (fun a b c hab hbc => by
        simp only [decide_eq_true_eq, reviewsCmp_nonpos] at *
        omega)
      (fun a b => by
        simp only [Bool.or_eq_true, decide_eq_true_eq, reviewsCmp_nonpos]
        omega)
      P
    exact hs.imp (fun h => (reviewsCmp_nonpos _ _).mp (by simpa using h))

/-- The primary and tie-break keys of each of the six recognized sort
options (spec §4.2 table); `False` outside the six tags. -/
def tieKeysEqual (sortOption : String) (a b : Product) : Prop :=
  match sortOption with
  | "name-asc" => a.name = b.name
  | "name-desc" => a.name = b.name
  | "price-asc" => a.price = b.price
  | "price-desc" => a.price = b.price
  | "rating" => a.rating = b.rating ∧ reviewsOrZero a = reviewsOrZero b
  | "reviews" => reviewsOrZero a = reviewsOrZero b ∧ a.rating = b.rating
  | _ => False

/-- Two products with equal keys compare as `≤ 0` under the option's
comparator, in both argument orders. -/
theorem localeCompare_self (x : String) : localeCompare x x = 0 := by
  simp [localeCompare]

/-- C8: `sortProducts` is stable for each recognized tag: a pair of
products with equal primary and tie-break keys appearing in order in the
input still appears in that order (as a sublist) in the output. -/
theorem sortProducts_stable (s : String) (a b : Product) (P : List Product)
    (hk : tieKeysEqual s a b) (hsub : List.Sublist [a, b] P) :
    List.Sublist [a, b] (sortProducts P s) := by
  unfold tieKeysEqual at hk
  split at hk
  · rw [sortProducts_name_asc]
    apply List.pair_sublist_mergeSort _ _ _ hsub
    · intro x y z
      simp only [decide_eq_true_eq, localeCompare_nonpos]
      exact le_trans
    · intro x y
      simp only [Bool.or_eq_true, decide_eq_true_eq, localeCompare_nonpos]
      exact le_total _ _
    · simp [hk, localeCompare_self]
  · rw [sortProducts_name_desc]
    apply List.pair_sublist_mergeSort _ _ _ hsub
    · intro x y z
      simp only [decide_eq_true_eq, localeCompare_nonpos]
      intro h1 h2
      exact le_trans h2 h1
    · intro x y
      simp only [Bool.or_eq_true, decide_eq_true_eq, localeCompare_nonpos]
      exact le_total _ _
    · simp [hk, localeCompare_self]
  · rw [sortProducts_price_asc]
    apply List.pair_sublist_mergeSort _ _ _ hsub
    · intro x y z
      simp only [decide_eq_true_eq]
      omega
    · intro x y
      simp only [Bool.or_eq_true, decide_eq_true_eq]
      omega
    · simp [hk]
  · rw [sortProducts_price_desc]
    apply List.pair_sublist_mergeSort _ _ _ hsub
    · intro x y z
      simp only [decide_eq_true_eq]
      omega
    · intro x y
      simp only [Bool.or_eq_true, decide_eq_true_eq]
      omega
    · simp [hk]
  · rw [sortProducts_rating_eq]
    apply List.pair_sublist_mergeSort _ _ _ hsub
    · intro x y z
      simp only [decide_eq_true_eq, ratingCmp_nonpos]
      omega
    · intro x y
      simp only [Bool.or_eq_true, decide_eq_true_eq, ratingCmp_nonpos]
      omega
    · simp only [decide_eq_true_eq, ratingCmp_nonpos]
      omega
  · rw [sortProducts_reviews_eq]
    apply List.pair_sublist_mergeSort _ _ _ hsub
    · intro x y z
      simp only [decide_eq_true_eq, reviewsCmp_nonpos]
      omega
    · intro x y
      simp only [Bool.or_eq_true, decide_eq_true_eq, reviewsCmp_nonpos]
      omega
    · simp only [decide_eq_true_eq, reviewsCmp_nonpos]
      omega
  · exact absurd hk (by simp)

/-- Closed instance of `sortProducts_stable`: `twinA` and `twinB` share
rating and review count, and keep their order under `"rating"`. -/
theorem sortProducts_stable_witness :
    tieKeysEqual "rating" twinA twinB ∧
    List.Sublist [twinA, twinB] (sortProducts [twinA, twinB] "rating") :=
  ⟨⟨rfl, rfl⟩,
    sortProducts_stable "rating" twinA twinB [twinA, twinB] ⟨rfl, rfl⟩
      (List.Sublist.refl _)⟩

/-- Keys of `bumpCount`: the updated object has key `k` iff the old one
did or `k` is the bumped category. -/
theorem bumpCount_keys (l : List (String × Nat)) (c k : String) :
    k ∈ (bumpCount l c).map Prod.fst ↔ k ∈ l.map Prod.fst ∨ k = c := by
  induction l with
  | nil => simp [bumpCount]
  | cons kv rest ih =>
    by_cases h : kv.1 = c
    · simp [bumpCount, h]
      tauto
    · simp [bumpCount, h, ih]
      tauto

/-- Values of `bumpCount` sum to one more than before. -/
theorem bumpCount_sum (l : List (String × Nat)) (c : String) :
    ((bumpCount l c).map Prod.snd).sum = (l.map Prod.snd).sum + 1 := by
  induction l with
  | nil => simp [bumpCount]
  | cons kv rest ih =>
    by_cases h : kv.1 = c
    · simp [bumpCount, h]
      omega
    · simp [bumpCount, h, ih]
      omega

/-- `bumpCount` keeps every count positive. -/
theorem bumpCount_pos (l : List (String × Nat)) (c : String)
    (h : ∀ kv ∈ l, 0 < kv.2) : ∀ kv ∈ bumpCount l c, 0 < kv.2 := by
  induction l with
  | nil =>
    intro kv hkv
    simp [bumpCount] at hkv
    simp [hkv]
  | cons kv0 rest ih =>
    intro kv hkv
    by_cases hc : kv0.1 = c
    · rw [bumpCount, if_pos hc] at hkv
      rcases List.mem_cons.mp hkv with rfl | hkv
      · simp
      · exact h kv (List.mem_cons_of_mem _ hkv)
    · rw [bumpCount, if_neg hc] at hkv
      rcases List.mem_cons.mp hkv with rfl | hkv
      · exact h kv (List.mem_cons_self _ _)
      · exact ih (fun x hx => h x (List.mem_cons_of_mem _ hx)) kv hkv

/-- Keys of the counting fold: exactly the seed's keys plus the
categories encountered. -/
theorem countFold_keys (P : List Product) :
    ∀ (acc : List (String × Nat)) (k : String),
      k ∈ ((P.foldl (fun counts p => bumpCount counts p.category) acc).map
        Prod.fst) ↔ k ∈ acc.map Prod.fst ∨ k ∈ P.map (·.category) := by
  induction P with
  | nil => simp
  | cons p rest ih =>
    intro acc k
    simp only [List.foldl_cons, ih, bumpCount_keys, List.map_cons,
      List.mem_cons]
    tauto

/-- The counting fold adds the number of products to the sum of counts. -/
theorem countFold_sum (P : List Product) :
    ∀ acc : List (String × Nat),
      (((P.foldl (fun counts p => bumpCount counts p.category) acc).map
        Prod.snd).sum) = (acc.map Prod.snd).sum + P.length := by
  induction P with
  | nil => simp
  | cons p rest ih =>
    intro acc
    simp only [List.foldl_cons, ih, bumpCount_sum, List.length_cons]
    omega

/-- The counting fold keeps every count positive. -/
theorem countFold_pos (P : List Product) :
    ∀ acc : List (String × Nat), (∀ kv ∈ acc, 0 < kv.2) →
      ∀ kv ∈ P.foldl (fun counts p => bumpCount counts p.category) acc,
        0 < kv.2 := by
  induction P with
  | nil =>
    intro acc hacc
    simpa using hacc
  | cons p rest ih =>
    intro acc hacc
    simp only [List.foldl_cons]
    exact ih _ (bumpCount_pos acc p.category hacc)

/-- Membership in the first-occurrence deduplication. -/
theorem jsSetFrom_mem (xs : List String) (x : String) :
    x ∈ jsSetFrom xs ↔ x ∈ xs := by
  have key : ∀ (l : List String) (acc : List String),
      x ∈ l.foldl (fun acc y => if y ∈ acc then acc else acc ++ [y]) acc ↔
        x ∈ acc ∨ x ∈ l := by
    intro l
    induction l with
    | nil => simp
    | cons y rest ih =>
      intro acc
      by_cases h : y ∈ acc
      · simp only [List.foldl_cons, if_pos h, ih, List.mem_cons]
        constructor
        · tauto
        · rintro (hx | rfl | hx) <;> tauto
      · simp only [List.foldl_cons, if_neg h, ih, List.mem_append,
          List.mem_singleton, List.mem_cons]
        tauto
  simpa using key xs []

/-- Membership in `getCategories`: exactly the categories occurring in
the input. -/
theorem getCategories_mem (P : List Product) (c : String) :
    c ∈ getCategories P ↔ c ∈ P.map (·.category) := by
  unfold getCategories jsStringSort
  rw [List.mem_mergeSort, jsSetFrom_mem]

/-- C10: the keys of `countProductsByCategory P` are exactly the elements
of `getCategories P`, every count is positive, and the counts sum to the
length of `P`. -/
theorem countProductsByCategory_spec (P : List Product) :
    (∀ c, c ∈ (countProductsByCategory P).map Prod.fst ↔
      c ∈ getCategories P) ∧
    (∀ kv ∈ countProductsByCategory P, 0 < kv.2) ∧
    ((countProductsByCategory P).map Prod.snd).sum = P.length := by
  refine ⟨fun c => ?_, ?_, ?_⟩
  · rw [countProductsByCategory, countFold_keys, getCategories_mem]
    simp
  · exact countFold_pos P [] (by simp)
  · rw [countProductsByCategory, countFold_sum]
    simp

end Catalog
